import Mathlib

/-!
Verification of the EasyOwl ontology library (extractor, hierarchy index,
similarity engine, facade) against its specification.

The Python sources are shallowly embedded: dictionaries become association
lists (first-match lookup, as Python dicts have unique keys), Python sets
become `Finset`s (so `list(s)` becomes a duplicate-free enumeration of the
set, `pyListOfSet` below), and fallible code returns `Except`.
-/

namespace EasyOwl

/-- Python values stored in an entity's `properties` map: after the
single-value collapse in `_extract_properties` (parsing.py), each value is
either a single string or a list of strings. -/
inductive PValue where
  | str (s : String)
  | list (vs : List String)
deriving DecidableEq

/-- Association-list lookup, embedding Python `dict` indexing / `.get`:
Python dicts have unique keys, so first-match lookup is exact. -/
def alookup {α β : Type} [DecidableEq α] : List (α × β) → α → Option β
  | [], _ => none
  | (k, v) :: t, a => if a = k then some v else alookup t a

/-!
Python's `list(set)` returns an unspecified-order, duplicate-free enumeration
of the set.  The embedding fixes one such enumeration: the elements sorted by
a kernel-computable lexicographic order on the strings' character data (the
built-in `String` order does not reduce in the kernel).
-/

def charNat (c : Char) : Nat := c.val.toNat

def strLeB : List Char → List Char → Bool
  | [], _ => true
  | _ :: _, [] => false
  | a :: as, b :: bs =>
    if charNat a < charNat b then true
    else if charNat b < charNat a then false
    else strLeB as bs

def strLe (a b : String) : Prop := strLeB a.data b.data = true

instance : DecidableRel strLe := fun a b => inferInstanceAs (Decidable (_ = true))

theorem strLeB_total : ∀ as bs, strLeB as bs = true ∨ strLeB bs as = true := by
  intro as
  induction as with
  | nil => intro bs; left; rfl
  | cons a as ih =>
    intro bs
    cases bs with
    | nil => right; rfl
    | cons b bs =>
      simp only [strLeB]
      rcases Nat.lt_trichotomy (charNat a) (charNat b) with h | h | h
      · left; simp [h]
      · have h1 : ¬ charNat a < charNat b := by omega
        have h2 : ¬ charNat b < charNat a := by omega
        rcases ih bs with h3 | h3 <;> simp [h1, h2, h3]
      · right; simp [h]

theorem strLeB_head {a b : Char} {as bs : List Char}
    (h : strLeB (a :: as) (b :: bs) = true) : charNat a ≤ charNat b := by
  by_cases hab : charNat a < charNat b
  · omega
  · by_cases hba : charNat b < charNat a
    · simp [strLeB, hab, hba] at h
    · omega

theorem strLeB_cons_eq {a b : Char} (as bs : List Char)
    (h1 : ¬ charNat a < charNat b) (h2 : ¬ charNat b < charNat a) :
    strLeB (a :: as) (b :: bs) = strLeB as bs := by
  simp [strLeB, h1, h2]

theorem strLeB_trans : ∀ as bs cs, strLeB as bs = true → strLeB bs cs = true →
    strLeB as cs = true := by
  intro as
  induction as with
  | nil => intro bs cs _ _; rfl
  | cons a as ih =>
    intro bs cs h1 h2
    cases bs with
    | nil => simp [strLeB] at h1
    | cons b bs =>
      cases cs with
      | nil => simp [strLeB] at h2
      | cons c cs =>
        have hab := strLeB_head h1
        have hbc := strLeB_head h2
        by_cases hac : charNat a < charNat c
        · simp [strLeB, hac]
        · have hca : ¬ charNat c < charNat a := by omega
          rw [strLeB_cons_eq as cs hac hca]
          have e1 : ¬ charNat a < charNat b := by omega
          have e2 : ¬ charNat b < charNat a := by omega
          have e3 : ¬ charNat b < charNat c := by omega
          have e4 : ¬ charNat c < charNat b := by omega
          rw [strLeB_cons_eq as bs e1 e2] at h1
          rw [strLeB_cons_eq bs cs e3 e4] at h2
          exact ih bs cs h1 h2

theorem strLeB_antisymm : ∀ as bs, strLeB as bs = true → strLeB bs as = true →
    as = bs := by
  intro as
  induction as with
  | nil => intro bs _ h2; cases bs with
    | nil => rfl
    | cons b bs => simp [strLeB] at h2
  | cons a as ih =>
    intro bs h1 h2
    cases bs with
    | nil => simp [strLeB] at h1
    | cons b bs =>
      simp only [strLeB] at h1 h2
      by_cases hab : charNat a < charNat b <;> by_cases hba : charNat b < charNat a <;>
        simp [hab, hba] at h1 h2
      · omega
      · have hv : a = b := by
          have : a.val.toNat = b.val.toNat := by simp [charNat] at hab hba ⊢; omega
          have : a.val = b.val := by
            apply UInt32.toNat.inj
            exact this
          exact Char.ext this
        rw [hv, ih bs h1 h2]

instance : IsTotal String strLe := ⟨fun a b => strLeB_total a.data b.data⟩
instance : IsTrans String strLe := ⟨fun a b c => strLeB_trans a.data b.data c.data⟩
instance : IsAntisymm String strLe :=
  ⟨fun a b h1 h2 => congrArg String.mk (strLeB_antisymm a.data b.data h1 h2)⟩

def pyListOfSet (s : Finset String) : List String :=
  Quot.liftOn s.val (fun l => l.insertionSort strLe)
    (fun l1 l2 h => List.eq_of_perm_of_sorted
      (((List.perm_insertionSort _ l1).trans h).trans (List.perm_insertionSort _ l2).symm)
      (List.sorted_insertionSort _ l1) (List.sorted_insertionSort _ l2))

theorem mem_pyListOfSet {x : String} {s : Finset String} : x ∈ pyListOfSet s ↔ x ∈ s := by
  rcases s with ⟨l, hl⟩
  induction l using Quot.ind
  exact ((List.perm_insertionSort strLe _).mem_iff)

theorem nodup_pyListOfSet (s : Finset String) : (pyListOfSet s).Nodup := by
  rcases s with ⟨l, hl⟩
  induction l using Quot.ind with
  | _ l => exact ((List.perm_insertionSort strLe l).nodup_iff).mpr hl

/-- A structured subclass value produced by `_parse_restriction_or_intersection`
(parsing.py): a dict with `onProperty` and `someValuesFrom` keys. -/
structure Restriction where
  onProperty : Option String
  someValuesFrom : Option String
deriving DecidableEq

/-- An element of a list-shaped subclass entry: either a plain URI string or a
restriction dict.  `build_subclass_map` (hierarchy.py) keeps only the strings. -/
inductive SubItem where
  | str (s : String)
  | restriction (r : Restriction)
deriving DecidableEq

/-- One entry of an entity's `subclasses` list: either a direct superclass URI
(string) or the list produced by restriction/intersection parsing. -/
inductive SubEntry where
  | str (s : String)
  | list (items : List SubItem)
deriving DecidableEq

/-- The per-entity record built by `_extract_entity` (parsing.py). -/
structure Entity where
  properties : List (String × PValue)
  subclasses : List SubEntry
  disjoints : List String
  synonyms : List (String × List String)
  skosMatches : List (String × List String)
deriving DecidableEq

/-- `entity["properties"].get(key)` on an entity record. -/
def pget (e : Entity) (k : String) : Option PValue := alookup e.properties k

/-- The subclass map / reverse map type: Python `dict[str, set[str]]`.
The value sets are kept as insertion-ordered duplicate-free lists so the
traversal's iteration over them is a definite list fold. -/
abbrev SubMap := List (String × List String)

/-- Value list at a key, `[]` when the key is absent. -/
def lookupList (m : SubMap) (k : String) : List String := (alookup m k).getD []

/-- `defaultdict(set)` update `m[k].add(v)`: create the key on first touch,
add `v` to its set (no duplicates). -/
def mapInsert (m : SubMap) (k v : String) : SubMap :=
  match m with
  | [] => [(k, [v])]
  | (k', l) :: t =>
    if k = k' then (k', if v ∈ l then l else l ++ [v]) :: t
    else (k', l) :: mapInsert t k v

/-- `build_subclass_map` (hierarchy.py, lines 9-37): for each entity, add every
string-typed subclass entry, and every string item of a list-typed entry, to
the entity's superclass set.  Restriction dicts fail the `isinstance` checks
and contribute nothing. -/
def build_subclass_map (entities : List (String × Entity)) : SubMap :=
  entities.foldl
    (fun m p =>
      p.2.subclasses.foldl
        (fun m sc =>
          match sc with
          | .str s => mapInsert m p.1 s
          | .list items =>
            items.foldl
              (fun m it =>
                match it with
                | .str s => mapInsert m p.1 s
                | .restriction _ => m)
              m)
        m)
    []

/-- `build_reverse_map` (hierarchy.py, lines 40-62): invert the subclass map. -/
def build_reverse_map (m : SubMap) : SubMap :=
  m.foldl (fun acc p => p.2.foldl (fun acc2 sup => mapInsert acc2 sup p.1) acc) []

/-- `HierarchyNavigator._traverse_ancestors` (hierarchy.py, lines 126-161).
Guards, in source order: the `max_depth` bound (`-1` = unlimited sentinel),
the hard ceiling `MAX_RECURSION_DEPTH = 1000`, and the shared visited set.
The mutable `visited` set is threaded through the fold exactly as the Python
recursion mutates it; the collected `ancestors` set is the first component.
`fuel` is an explicit structural-termination argument: the public entry point
passes `1002`, and since each recursive call increases `currentDepth` by one
while the depth-ceiling guard stops every call with `currentDepth > 1000`,
the `fuel = 0` branch is unreachable from the entry point, so the function
agrees with the Python recursion. -/
def traverseHier (m : SubMap) (maxDepth : Int) :
    Nat → String → Finset String → Nat → Finset String × Finset String
  | 0, _, visited, _ => (∅, visited)
  | fuel + 1, entityId, visited, currentDepth =>
    if maxDepth ≠ -1 ∧ maxDepth < (currentDepth : Int) then (∅, visited)
    else if 1000 < currentDepth then (∅, visited)
    else if entityId ∈ visited then (∅, visited)
    else
      match alookup m entityId with
      | none => (∅, insert entityId visited)
      | some supers =>
        supers.foldl
          (fun acc sup =>
            let r := traverseHier m maxDepth fuel sup acc.2 (currentDepth + 1)
            (insert sup acc.1 ∪ r.1, r.2))
          (∅, insert entityId visited)

/-- `HierarchyNavigator.get_ancestors` (hierarchy.py, lines 88-124): start the
traversal at depth 0 with an empty visited set.  The returned Python list is
`list(ancestors)`; we keep the set and expose the list as `toList`. -/
def get_ancestors (m : SubMap) (entityId : String) (maxDepth : Int) : Finset String :=
  (traverseHier m maxDepth 1002 entityId ∅ 0).1

/-- `list(...)` of the ancestor set: the list the Python method returns. -/
def get_ancestors_list (m : SubMap) (entityId : String) (maxDepth : Int) : List String :=
  pyListOfSet (get_ancestors m entityId maxDepth)

/-- `HierarchyNavigator.get_descendants` / `_traverse_descendants`
(hierarchy.py, lines 163-236): the method body is textually
`_traverse_ancestors` with `_reverse_map` in place of `_subclass_map`, so it
is embedded as the shared traversal applied to `build_reverse_map` (which the
navigator constructor computes from the subclass map). -/
def get_descendants (m : SubMap) (entityId : String) (maxDepth : Int) : Finset String :=
  (traverseHier (build_reverse_map m) maxDepth 1002 entityId ∅ 0).1

/-- `list(...)` of the descendant set: the list the Python method returns. -/
def get_descendants_list (m : SubMap) (entityId : String) (maxDepth : Int) : List String :=
  pyListOfSet (get_descendants m entityId maxDepth)

/-- `HierarchyNavigator.has_entity` (hierarchy.py, lines 238-252). -/
def has_entity (m : SubMap) (entityId : String) : Bool :=
  (alookup m entityId).isSome || (alookup (build_reverse_map m) entityId).isSome

/-!
Claim C1: the two-class scenario.
-/

/-- Scenario entities for C1: class `A` carries one `subClassOf` resource
reference to `B`; class `B` has no subclass references. -/
def entityA : Entity := ⟨[], [SubEntry.str "B"], [], [], []⟩

/-- Scenario class `B` of C1. -/
def entityB : Entity := ⟨[], [], [], [], []⟩

/-- Scenario entity map of C1. -/
def scenarioC1 : List (String × Entity) := [("A", entityA), ("B", entityB)]

/-- C1: for a document defining class A with a subClassOf resource reference
to B and class B with no subclass references, `get_ancestors("A")` returns
exactly `["B"]`, `get_descendants("B")` returns exactly `["A"]`, and
`get_ancestors("B")` returns the empty list (default depth is the unlimited
sentinel `-1`). -/
theorem C1_two_class_scenario :
    get_ancestors_list (build_subclass_map scenarioC1) "A" (-1) = ["B"] ∧
    get_descendants_list (build_subclass_map scenarioC1) "B" (-1) = ["A"] ∧
    get_ancestors_list (build_subclass_map scenarioC1) "B" (-1) = [] := by
  decide

/-!
Claim C4: cycle safety and the silent depth ceiling.
-/

/-- Subclass map of the two-node cycle `A subClassOf B`, `B subClassOf A`. -/
def cycleMap : SubMap := [("A", ["B"]), ("B", ["A"])]

/-- C4: for the two-node cycle, `get_ancestors(A, -1)` and
`get_descendants(A, -1)` terminate (the embedded traversal is total by
construction) and return finite deduplicated results, and the traversal has
no error path: in particular, beyond the depth ceiling of 1000 the walk
returns the empty expansion (leaving the visited set untouched) instead of
reporting an error. -/
theorem C4_cycle_safety :
    (get_ancestors_list cycleMap "A" (-1)).Nodup ∧
    get_ancestors cycleMap "A" (-1) = {"A", "B"} ∧
    (get_descendants_list cycleMap "A" (-1)).Nodup ∧
    get_descendants cycleMap "A" (-1) = {"A", "B"} ∧
    (∀ (m : SubMap) (maxDepth : Int) (fuel : Nat) (e : String) (vis : Finset String)
      (d : Nat), 1000 < d → traverseHier m maxDepth fuel e vis d = (∅, vis)) := by
  refine ⟨by decide, by decide, by decide, by decide, ?_⟩
  intro m maxDepth fuel e vis d hd
  cases fuel with
  | zero => rfl
  | succ f =>
    simp only [traverseHier]
    split_ifs with h1 h2 <;> first | rfl | omega

/-- Witness for C4's universally quantified conjunct at a concrete input. -/
theorem C4_cycle_safety_witness :
    traverseHier [] (-1) 5 "X" ∅ 1001 = (∅, ∅) :=
  C4_cycle_safety.2.2.2.2 [] (-1) 5 "X" ∅ 1001 (by omega)

/-!
Claim C3: traversal results are deduplicated; self-exclusion of the queried
id holds exactly when the id does not lie on a directed cycle of the
traversed map.  `Reaches m x y` means `y` is reachable from `x` through one
or more edges of the map `m`.
-/

/-- Reachability through one or more lookups in a `SubMap`. -/
inductive Reaches (m : SubMap) : String → String → Prop where
  | single {x y : String} (h : y ∈ lookupList m x) : Reaches m x y
  | head {x y z : String} (h : y ∈ lookupList m x) (h2 : Reaches m y z) : Reaches m x z

/-- Everything collected by the traversal fold is either already in the
accumulator, a direct superclass from the processed list, or collected by a
recursive call on one of them (with some visited set). -/
theorem traverseHier_fold_sound (m : SubMap) (maxDepth : Int) (fuel : Nat) (d : Nat) :
    ∀ (supers : List String) (acc : Finset String × Finset String) (x : String),
      x ∈ (supers.foldl (fun acc sup =>
        let r := traverseHier m maxDepth fuel sup acc.2 (d + 1)
        (insert sup acc.1 ∪ r.1, r.2)) acc).1 →
      x ∈ acc.1 ∨ ∃ sup ∈ supers,
        x = sup ∨ ∃ vis, x ∈ (traverseHier m maxDepth fuel sup vis (d + 1)).1 := by
  intro supers
  induction supers with
  | nil => intro acc x h; exact Or.inl h
  | cons s t ih =>
    intro acc x h
    simp only [List.foldl_cons] at h
    rcases ih _ x h with h1 | ⟨sup, hs, h2⟩
    · rcases Finset.mem_union.mp h1 with h3 | h3
      · rcases Finset.mem_insert.mp h3 with h4 | h4
        · exact Or.inr ⟨s, List.mem_cons_self s t, Or.inl h4⟩
        · exact Or.inl h4
      · exact Or.inr ⟨s, List.mem_cons_self s t,
          Or.inr ⟨acc.2, h3⟩⟩
    · exact Or.inr ⟨sup, List.mem_cons_of_mem s hs, h2⟩

/-- Soundness of the traversal: every collected id is reachable from the
start id through one or more map edges. -/
theorem traverseHier_sound : ∀ (fuel : Nat) (m : SubMap) (maxDepth : Int) (e : String)
    (vis : Finset String) (d : Nat) (x : String),
    x ∈ (traverseHier m maxDepth fuel e vis d).1 → Reaches m e x := by
  intro fuel
  induction fuel with
  | zero => intro m maxDepth e vis d x h; simp [traverseHier] at h
  | succ f ih =>
    intro m maxDepth e vis d x h
    simp only [traverseHier] at h
    split_ifs at h with h1 h2 h3
    · exact absurd h (Finset.not_mem_empty x)
    · exact absurd h (Finset.not_mem_empty x)
    · exact absurd h (Finset.not_mem_empty x)
    rcases hl : alookup m e with _ | supers
    · rw [hl] at h; exact absurd h (Finset.not_mem_empty x)
    · rw [hl] at h
      rcases traverseHier_fold_sound m maxDepth f d supers _ x h with h1 | ⟨sup, hs, h2⟩
      · simp at h1
      · have hsup : sup ∈ lookupList m e := by rw [lookupList, hl]; simpa using hs
        rcases h2 with rfl | ⟨vis2, h3⟩
        · exact Reaches.single hsup
        · exact Reaches.head hsup (ih m maxDepth sup vis2 (d + 1) x h3)

/-- C3 (amended): for every map, entity id and max_depth, the lists returned
by `get_ancestors` and `get_descendants` are deduplicated; and they exclude
the queried id itself whenever the queried id does not lie on a directed
cycle of the traversed map (for a queried id on a cycle the id itself can
appear in the result, see the counterexample). -/
theorem C3_dedup_and_self_exclusion (m : SubMap) (entityId : String) (maxDepth : Int) :
    (get_ancestors_list m entityId maxDepth).Nodup ∧
    (¬ Reaches m entityId entityId →
      entityId ∉ get_ancestors_list m entityId maxDepth) ∧
    (get_descendants_list m entityId maxDepth).Nodup ∧
    (¬ Reaches (build_reverse_map m) entityId entityId →
      entityId ∉ get_descendants_list m entityId maxDepth) := by
  refine ⟨nodup_pyListOfSet _, fun hnr hmem => ?_, nodup_pyListOfSet _, fun hnr hmem => ?_⟩
  · exact hnr (traverseHier_sound 1002 m maxDepth entityId ∅ 0 entityId
      (mem_pyListOfSet.mp hmem))
  · exact hnr (traverseHier_sound 1002 (build_reverse_map m) maxDepth entityId ∅ 0 entityId
      (mem_pyListOfSet.mp hmem))

/-- In the cyclic two-node document, `get_ancestors(A, -1)` does contain the
queried id `A` itself: the claim as stated fails on cyclic data. -/
theorem C3_counterexample :
    "A" ∈ get_ancestors_list [("A", ["B"]), ("B", ["A"])] "A" (-1) := by decide

/-- Reachability is refuted when the start id has no outgoing edges. -/
theorem not_reaches_of_no_edges {m : SubMap} {w : String}
    (h : lookupList m w = []) : ∀ z, ¬ Reaches m w z := by
  intro z hr
  cases hr with
  | single hm => rw [h] at hm; simp at hm
  | head hm _ => rw [h] at hm; simp at hm

/-- Witness for C3 at the acyclic one-edge map. -/
theorem C3_witness :
    ("A" ∉ get_ancestors_list [("A", ["B"])] "A" (-1)) ∧
    ("A" ∉ get_descendants_list [("A", ["B"])] "A" (-1)) ∧
    (get_ancestors_list [("A", ["B"])] "A" (-1)).Nodup := by
  have h := C3_dedup_and_self_exclusion [("A", ["B"])] "A" (-1)
  refine ⟨h.2.1 ?_, h.2.2.2 ?_, h.1⟩
  · intro hr
    cases hr with
    | single hm => simp [lookupList, alookup] at hm
    | head hm h2 =>
      have he : lookupList [("A", ["B"])] "A" = ["B"] := rfl
      rw [he] at hm
      simp at hm
      subst hm
      exact not_reaches_of_no_edges (by rfl) _ h2
  · exact not_reaches_of_no_edges (by rfl) _

/-!
Claim C8: depth-1 inverse relationship between ancestors and descendants.
The lemmas characterise membership in the reverse map and in the depth-1
traversal.
-/

/-- Membership in a `lookupList` unfolds to a successful `alookup`. -/
theorem mem_lookupList {m : SubMap} {k x : String} :
    x ∈ lookupList m k ↔ ∃ l, alookup m k = some l ∧ x ∈ l := by
  cases h : alookup m k <;> simp [lookupList, h]

/-- A successful `alookup` exhibits a member of the association list. -/
theorem alookup_mem {α β : Type} [DecidableEq α] :
    ∀ {m : List (α × β)} {k : α} {v : β}, alookup m k = some v → (k, v) ∈ m := by
  intro m
  induction m with
  | nil => intro k v h; simp [alookup] at h
  | cons p t ih =>
    intro k v h
    rcases p with ⟨k1, v1⟩
    by_cases hk : k = k1
    · rw [alookup, if_pos hk] at h
      cases h
      subst hk
      exact List.mem_cons_self _ _
    · rw [alookup, if_neg hk] at h
      exact List.mem_cons_of_mem _ (ih h)

/-- Looking a key up in a cons cell. -/
theorem lookupList_cons {k1 : String} {l : List String} {t : SubMap} {w : String} :
    lookupList ((k1, l) :: t) w = if w = k1 then l else lookupList t w := by
  by_cases hw : w = k1 <;> simp [lookupList, alookup, hw]

/-- Updating an association list at its head key. -/
theorem mapInsert_cons_self {k v : String} {l : List String} {t : SubMap} :
    mapInsert ((k, l) :: t) k v = (k, if v ∈ l then l else l ++ [v]) :: t := by
  simp [mapInsert]

/-- Updating an association list below its head key. -/
theorem mapInsert_cons_ne {k k1 v : String} {l : List String} {t : SubMap}
    (h : ¬ k = k1) : mapInsert ((k1, l) :: t) k v = (k1, l) :: mapInsert t k v := by
  simp [mapInsert, h]

/-- Membership through a `mapInsert` update. -/
theorem mem_lookupList_mapInsert {M : SubMap} {k v w x : String} :
    x ∈ lookupList (mapInsert M k v) w ↔ (w = k ∧ x = v) ∨ x ∈ lookupList M w := by
  induction M with
  | nil =>
    by_cases hw : w = k <;> simp [mapInsert, lookupList, alookup, hw]
  | cons p t ih =>
    rcases p with ⟨k1, l⟩
    by_cases hkk : k = k1
    · subst hkk
      rw [mapInsert_cons_self]
      by_cases hw : w = k
      · rw [lookupList_cons, lookupList_cons, if_pos hw, if_pos hw]
        by_cases hv : v ∈ l
        · rw [if_pos hv]
          constructor
          · exact fun h => Or.inr h
          · rintro (⟨-, rfl⟩ | h)
            · exact hv
            · exact h
        · rw [if_neg hv]
          constructor
          · intro h
            rcases List.mem_append.mp h with h | h
            · exact Or.inr h
            · exact Or.inl ⟨hw, by simpa using h⟩
          · rintro (⟨-, rfl⟩ | h)
            · exact List.mem_append.mpr (Or.inr (by simp))
            · exact List.mem_append.mpr (Or.inl h)
      · rw [lookupList_cons, lookupList_cons, if_neg hw, if_neg hw]
        simp [hw]
    · rw [mapInsert_cons_ne hkk]
      by_cases hw : w = k1
      · rw [lookupList_cons, lookupList_cons, if_pos hw, if_pos hw]
        have hne : ¬ w = k := fun e => hkk (e ▸ hw)
        simp [hne]
      · rw [lookupList_cons, lookupList_cons, if_neg hw, if_neg hw]
        exact ih

/-- Membership after the inner fold of `build_reverse_map` over one entry's
superclass list. -/
theorem mem_revmap_inner (entityId : String) :
    ∀ (sups : List String) (acc : SubMap) (w x : String),
      x ∈ lookupList (sups.foldl (fun a2 sup => mapInsert a2 sup entityId) acc) w ↔
        (w ∈ sups ∧ x = entityId) ∨ x ∈ lookupList acc w := by
  intro sups
  induction sups with
  | nil => intro acc w x; simp
  | cons s t ih =>
    intro acc w x
    simp only [List.foldl_cons]
    rw [ih]
    rw [mem_lookupList_mapInsert]
    simp [List.mem_cons]
    tauto

/-- Membership in the reverse map fold over all entries. -/
theorem mem_revmap_fold :
    ∀ (entries : SubMap) (acc : SubMap) (w x : String),
      x ∈ lookupList (entries.foldl
          (fun acc p => p.2.foldl (fun a2 sup => mapInsert a2 sup p.1) acc) acc) w ↔
        (∃ p ∈ entries, x = p.1 ∧ w ∈ p.2) ∨ x ∈ lookupList acc w := by
  intro entries
  induction entries with
  | nil => intro acc w x; simp
  | cons p t ih =>
    intro acc w x
    simp only [List.foldl_cons]
    rw [ih, mem_revmap_inner]
    constructor
    · rintro (⟨q, hq, e1, e2⟩ | ⟨hw, rfl⟩ | h)
      · exact Or.inl ⟨q, List.mem_cons_of_mem p hq, e1, e2⟩
      · exact Or.inl ⟨p, List.mem_cons_self p t, rfl, hw⟩
      · exact Or.inr h
    · rintro (⟨q, hq, e1, e2⟩ | h)
      · rcases List.mem_cons.mp hq with rfl | hq2
        · exact Or.inr (Or.inl ⟨e2, e1⟩)
        · exact Or.inl ⟨q, hq2, e1, e2⟩
      · exact Or.inr (Or.inr h)

/-- Completeness of the reverse map: a forward edge `y ∈ m[x]` yields the
reverse edge `x ∈ reverse_map[y]`. -/
theorem mem_build_reverse_map {m : SubMap} {x y : String}
    (h : y ∈ lookupList m x) : x ∈ lookupList (build_reverse_map m) y := by
  rcases mem_lookupList.mp h with ⟨l, hl, hy⟩
  rw [build_reverse_map, mem_revmap_fold]
  exact Or.inl ⟨(x, l), alookup_mem hl, rfl, hy⟩

/-- With `max_depth = 1`, any traversal call at depth 2 stops before touching
the visited set. -/
theorem traverseHier_depth2 (m : SubMap) (fuel : Nat) (e : String) (vis : Finset String) :
    traverseHier m 1 fuel e vis 2 = (∅, vis) := by
  cases fuel with
  | zero => rfl
  | succ f =>
    simp only [traverseHier]
    rw [if_pos]
    exact ⟨by decide, by decide⟩

/-- Closed form of a `max_depth = 1` traversal call at depth 1: it expands
the node once (direct superclasses only) and marks it visited, or is cut by
the visited set. -/
theorem traverseHier_depth1 (m : SubMap) (fuel : Nat) (e : String) (vis : Finset String) :
    traverseHier m 1 (fuel + 1) e vis 1 =
      if e ∈ vis then (∅, vis)
      else ((lookupList m e).toFinset, insert e vis) := by
  simp only [traverseHier]
  have hc1 : ¬ ((1 : Int) ≠ -1 ∧ (1 : Int) < ((1 : Nat) : Int)) := by
    intro h
    exact absurd h.2 (by norm_num)
  have hc2 : ¬ (1000 < 1) := by omega
  rw [if_neg hc1, if_neg hc2]
  by_cases hv : e ∈ vis
  · rw [if_pos hv, if_pos hv]
  · rw [if_neg hv, if_neg hv]
    cases hl : alookup m e with
    | none => simp [lookupList, hl]
    | some supers =>
      have hle : lookupList m e = supers := by simp [lookupList, hl]
      rw [hle]
      have h2 : ∀ (s : String) (v2 : Finset String),
          traverseHier m 1 fuel s v2 (1 + 1) = (∅, v2) :=
        fun s v2 => traverseHier_depth2 m fuel s v2
      have key : ∀ (l : List String) (a v : Finset String),
          l.foldl (fun acc sup => ((insert sup acc.1 : Finset String), acc.2)) (a, v) =
          (a ∪ l.toFinset, v) := by
        intro l
        induction l with
        | nil => intro a v; simp
        | cons s t ih =>
          intro a v
          simp only [List.foldl_cons]
          rw [ih]
          congr 1
          ext z
          simp [or_assoc]
      have hext := List.foldl_ext
        (fun (acc : Finset String × Finset String) sup =>
          (insert sup acc.1 ∪ (traverseHier m 1 fuel sup acc.2 (1 + 1)).1,
            (traverseHier m 1 fuel sup acc.2 (1 + 1)).2))
        (fun (acc : Finset String × Finset String) sup =>
          ((insert sup acc.1 : Finset String), acc.2))
        ((∅ : Finset String), insert e vis)
        (l := supers)
        (by
          intro acc sup hsup
          dsimp only
          rw [h2]
          simp)
      exact hext.trans ((key supers ∅ (insert e vis)).trans
        (by rw [Finset.empty_union]))

/-- The accumulated result set of the traversal fold only grows. -/
theorem traverseHier_fold_mono (m : SubMap) (maxDepth : Int) (fuel : Nat) (d : Nat) :
    ∀ (supers : List String) (acc : Finset String × Finset String),
      acc.1 ⊆ (supers.foldl (fun acc sup =>
        let r := traverseHier m maxDepth fuel sup acc.2 (d + 1)
        (insert sup acc.1 ∪ r.1, r.2)) acc).1 := by
  intro supers
  induction supers with
  | nil => intro acc; exact fun x hx => hx
  | cons s t ih =>
    intro acc
    intro x hx
    simp only [List.foldl_cons]
    exact ih _ (Finset.mem_union_left _ (Finset.mem_insert_of_mem hx))

/-- Every processed list element lands in the traversal fold's result set. -/
theorem traverseHier_fold_elem (m : SubMap) (maxDepth : Int) (fuel : Nat) (d : Nat) :
    ∀ (supers : List String) (acc : Finset String × Finset String) (c : String),
      c ∈ supers →
      c ∈ (supers.foldl (fun acc sup =>
        let r := traverseHier m maxDepth fuel sup acc.2 (d + 1)
        (insert sup acc.1 ∪ r.1, r.2)) acc).1 := by
  intro supers
  induction supers with
  | nil => intro acc c h; simp at h
  | cons s t ih =>
    intro acc c h
    simp only [List.foldl_cons]
    rcases List.mem_cons.mp h with rfl | h2
    · exact traverseHier_fold_mono m maxDepth fuel d t _
        (Finset.mem_union_left _ (Finset.mem_insert_self c acc.1))
    · exact ih _ c h2

/-- In a `max_depth = 1` traversal fold at depth 0, every not-yet-visited
processed node gets fully expanded: its own direct edges land in the result. -/
theorem traverseHier_fold_expand (m : SubMap) (fuel : Nat) :
    ∀ (supers : List String) (a v : Finset String) (p x : String),
      p ∈ supers → x ∈ lookupList m p → p ∉ v →
      x ∈ (supers.foldl (fun acc sup =>
        let r := traverseHier m 1 (fuel + 1) sup acc.2 (0 + 1)
        (insert sup acc.1 ∪ r.1, r.2)) (a, v)).1 := by
  intro supers
  induction supers with
  | nil => intro a v p x h; simp at h
  | cons s t ih =>
    intro a v p x hp hx hpv
    simp only [List.foldl_cons]
    have h01 : (0 : Nat) + 1 = 1 := rfl
    by_cases hps : p = s
    · subst hps
      rw [h01, traverseHier_depth1, if_neg hpv]
      refine traverseHier_fold_mono m 1 (fuel + 1) 0 t _ ?_
      exact Finset.mem_union_right _ (List.mem_toFinset.mpr hx)
    · have hpt : p ∈ t := (List.mem_cons.mp hp).resolve_left hps
      rw [h01, traverseHier_depth1]
      by_cases hsv : s ∈ v
      · rw [if_pos hsv]
        exact ih _ _ p x hpt hx hpv
      · rw [if_neg hsv]
        exact ih _ _ p x hpt hx (fun hm => (Finset.mem_insert.mp hm).elim hps hpv)

/-- One-step unfolding of the public traversal entry point (`max_depth = 1`,
fuel 1002, depth 0, empty visited set). -/
theorem traverseHier_top (m : SubMap) (e : String) :
    traverseHier m 1 1002 e ∅ 0 =
      match alookup m e with
      | none => (∅, insert e ∅)
      | some supers =>
        supers.foldl (fun acc sup =>
          let r := traverseHier m 1 1001 sup acc.2 (0 + 1)
          (insert sup acc.1 ∪ r.1, r.2)) (∅, insert e ∅) := by
  show traverseHier m 1 (1001 + 1) e ∅ 0 = _
  rw [traverseHier.eq_2]
  have g1 : ¬ ((1 : Int) ≠ -1 ∧ (1 : Int) < ((0 : Nat) : Int)) := by
    intro hh
    have := hh.2
    norm_num at this
  have g2 : ¬ (1000 < 0) := by omega
  rw [if_neg g1, if_neg g2, if_neg (Finset.not_mem_empty e)]

/-- A depth-1 recursive call with positive fuel only collects direct edges. -/
theorem mem_depth1_call {m : SubMap} {sup B : String} {vis : Finset String}
    (h : B ∈ (traverseHier m 1 1001 sup vis (0 + 1)).1) : B ∈ lookupList m sup := by
  have h01 : (0 : Nat) + 1 = 1 := rfl
  rw [h01] at h
  have hd1 : traverseHier m 1 1001 sup vis 1 =
      if sup ∈ vis then (∅, vis)
      else ((lookupList m sup).toFinset, insert sup vis) :=
    traverseHier_depth1 m 1000 sup vis
  rw [hd1] at h
  by_cases hsv : sup ∈ vis
  · rw [if_pos hsv] at h
    exact absurd h (Finset.not_mem_empty B)
  · rw [if_neg hsv] at h
    exact List.mem_toFinset.mp h

/-- C8: for every subclass map and all ids A and B, if B is among the
depth-1 ancestors of A then A is among the depth-1 descendants of B. -/
theorem C8_depth1_inverse (m : SubMap) (A B : String)
    (h : B ∈ get_ancestors_list m A 1) : A ∈ get_descendants_list m B 1 := by
  have hB := mem_pyListOfSet.mp h
  rw [get_ancestors, traverseHier_top] at hB
  apply mem_pyListOfSet.mpr
  rw [get_descendants, traverseHier_top]
  rcases hsupA : alookup m A with _ | supsA
  · rw [hsupA] at hB
    exact absurd hB (Finset.not_mem_empty B)
  · rw [hsupA] at hB
    have hLA : lookupList m A = supsA := by simp [lookupList, hsupA]
    have hsound := traverseHier_fold_sound m 1 1001 0 supsA (∅, insert A ∅) B hB
    have hcase : B ∈ lookupList m A ∨
        ∃ p, p ∈ lookupList m A ∧ B ∈ lookupList m p := by
      rcases hsound with h1 | ⟨sup, hs, rfl | ⟨vis2, h3⟩⟩
      · exact absurd h1 (Finset.not_mem_empty B)
      · exact Or.inl (hLA ▸ hs)
      · exact Or.inr ⟨sup, hLA ▸ hs, mem_depth1_call h3⟩
    have hfinish : ∀ {q : String}, q ∈ lookupList m A → B ∈ lookupList m q →
        A ∈ (match alookup (build_reverse_map m) B with
          | none => ((∅ : Finset String), insert B ∅)
          | some children =>
            children.foldl (fun acc sup =>
              let r := traverseHier (build_reverse_map m) 1 1001 sup acc.2 (0 + 1)
              (insert sup acc.1 ∪ r.1, r.2)) (∅, insert B ∅)).1 := by
      intro q hqA hBq
      have hqrB : q ∈ lookupList (build_reverse_map m) B := mem_build_reverse_map hBq
      have hArq : A ∈ lookupList (build_reverse_map m) q := mem_build_reverse_map hqA
      rcases hrB : alookup (build_reverse_map m) B with _ | childrenB
      · rw [lookupList, hrB] at hqrB
        simp at hqrB
      · have hCB : lookupList (build_reverse_map m) B = childrenB := by
          simp [lookupList, hrB]
        rw [hCB] at hqrB
        by_cases hqB : q = B
        · exact traverseHier_fold_elem (build_reverse_map m) 1 1001 0 childrenB
            (∅, insert B ∅) A (by rw [← hCB, ← hqB]; exact hArq)
        · exact traverseHier_fold_expand (build_reverse_map m) 1000 childrenB
            ∅ (insert B ∅) q A hqrB hArq
            (fun hm => (Finset.mem_insert.mp hm).elim hqB (Finset.not_mem_empty q))
    rcases hcase with h1 | ⟨p, hp1, hp2⟩
    · have hArB : A ∈ lookupList (build_reverse_map m) B := mem_build_reverse_map h1
      rcases hrB : alookup (build_reverse_map m) B with _ | childrenB
      · rw [lookupList, hrB] at hArB
        simp at hArB
      · have hCB : lookupList (build_reverse_map m) B = childrenB := by
          simp [lookupList, hrB]
        rw [hCB] at hArB
        exact traverseHier_fold_elem (build_reverse_map m) 1 1001 0 childrenB
          (∅, insert B ∅) A hArB
    · exact hfinish hp1 hp2

/-- Witness for C8 at the one-edge map. -/
theorem C8_witness : "A" ∈ get_descendants_list [("A", ["B"])] "B" 1 :=
  C8_depth1_inverse [("A", ["B"])] "A" "B" (by decide)

/-!
Similarity engine (similarity.py).  The term index is built from entity
labels and exact synonyms; the TF-IDF cosine-similarity matrix itself is the
product of the external sklearn library and is abstracted as given row data
with exact rational scores (the claims below depend only on comparisons of
scores, not on their numeric computation).
-/

/-- Python dict update `d[k] = v`: overwrite in place, append new keys. -/
def assocUpd {α β : Type} [DecidableEq α] : List (α × β) → α → β → List (α × β)
  | [], k, v => [(k, v)]
  | (k1, v1) :: t, k, v =>
    if k = k1 then (k, v) :: t else (k1, v1) :: assocUpd t k v

/-- A Python dict comprehension: consecutive updates on an empty dict. -/
def dictOf {α β : Type} [DecidableEq α] (l : List (α × β)) : List (α × β) :=
  l.foldl (fun d p => assocUpd d p.1 p.2) []

/-- Term-index update: `if name not in term_to_ids: term_to_ids[name] = set()`
followed by `term_to_ids[name].add(entity_id)` (similarity.py).  Keys are the
raw label values (`None`, a string, or a list). -/
def tiAdd : List (Option PValue × Finset PValue) → Option PValue → PValue →
    List (Option PValue × Finset PValue)
  | [], name, idv => [(name, {idv})]
  | (n1, s1) :: t, name, idv =>
    if name = n1 then (n1, insert idv s1) :: t else (n1, s1) :: tiAdd t name idv

/-- Result triple of `build_term_index` (similarity.py, lines 15-70). -/
structure TermIndex where
  term_to_ids : List (Option PValue × Finset PValue)
  index_to_term : List (Nat × Option PValue)
  term_to_index : List (Option PValue × Nat)
deriving DecidableEq

/-- `build_term_index` on the dict's value list (the Python function starts by
iterating `entities.values()`; the URI keys are never read). -/
def build_term_index_values (values : List Entity) : TermIndex :=
  let exact_names := dictOf (values.filterMap (fun e =>
    match pget e "id" with
    | none => none
    | some i => some (i, pget e "label")))
  let synonymy := dictOf (values.filterMap (fun e =>
    match pget e "id" with
    | none => none
    | some i => some (i, pget e "hasExactSynonym")))
  let t1 := exact_names.foldl (fun t p => tiAdd t p.2 p.1) []
  let term_to_ids := synonymy.foldl (fun t p =>
    match p.2 with
    | none => t
    | some (.str s) => tiAdd t (some (.str s)) p.1
    | some (.list vs) => vs.foldl (fun t n => tiAdd t (some (.str n)) p.1) t) t1
  let term_to_index := term_to_ids.enum.map (fun p => (p.2.1, p.1))
  let index_to_term := term_to_ids.enum.map (fun p => (p.1, p.2.1))
  ⟨term_to_ids, index_to_term, term_to_index⟩

/-- `build_term_index` (similarity.py, lines 15-70): extract labels and exact
synonyms of every entity carrying an `id` property into the term maps. -/
def build_term_index (entities : List (String × Entity)) : TermIndex :=
  build_term_index_values (entities.map (fun p => p.2))

/-- Query errors of the facade and the similarity engine (exceptions.py). -/
inductive QueryError where
  | entityNotFound (entityId : String)
  | termNotFound (term : String)
deriving DecidableEq

/-- One entry of a `find_similar` result list:
`{'name': ..., 'ids': ..., 'score': ...}`. -/
structure SimResult where
  name : Option PValue
  ids : Finset PValue
  score : ℚ
deriving DecidableEq

/-- Insert into a descending-sorted list (strictly-greater scores first). -/
def sortDescInsert (p : Nat × ℚ) : List (Nat × ℚ) → List (Nat × ℚ)
  | [] => [p]
  | q :: t => if q.2 < p.2 then p :: q :: t else q :: sortDescInsert p t

/-- `sorted(similar_terms, key=lambda x: x[1], reverse=True)`: one definite
descending-by-score ordering (the spec allows arbitrary tie-breaking). -/
def sortDesc (l : List (Nat × ℚ)) : List (Nat × ℚ) := l.foldr sortDescInsert []

/-- `SimilaritySearch` (similarity.py): the three index maps plus the lazily
built similarity matrix.  The matrix is sklearn's product, abstracted as a
row-indexed CSR slice `zip(indices, data)` with exact rational scores;
`none` models the state in which `_build_matrix` leaves the matrix unset
(no valid terms), making `find_similar` return `[]`. -/
structure SimilaritySearch where
  term_to_ids : List (Option PValue × Finset PValue)
  index_to_term : List (Nat × Option PValue)
  term_to_index : List (Option PValue × Nat)
  matrix : Option (Nat → List (Nat × ℚ))

/-- `SimilaritySearch.find_similar` (similarity.py, lines 117-203): raise
`TermNotFoundError` for unregistered terms; otherwise slice the query row,
apply the strict threshold filter if given, then `heapq.nlargest(n, ...)`
(equivalent to the descending sort truncated to `n`) if `n` is given, else
the full descending sort; finally build the result dicts.  (Index values
absent from `index_to_term`/`term_to_ids` would raise `KeyError` in Python;
that cannot happen for the maps produced by `build_term_index`, and the
embedding totalises those lookups with defaults.) -/
def find_similar (s : SimilaritySearch) (term : String) (n : Option Nat)
    (threshold : Option ℚ) : Except QueryError (List SimResult) :=
  if (alookup s.term_to_index (some (PValue.str term))).isNone then
    Except.error (QueryError.termNotFound term)
  else
    match s.matrix with
    | none => Except.ok []
    | some rows =>
      let query_index := (alookup s.term_to_index (some (PValue.str term))).getD 0
      let similar_terms := rows query_index
      let filtered := match threshold with
        | none => similar_terms
        | some x => similar_terms.filter (fun p => decide (x < p.2))
      let selected := match n with
        | none => sortDesc filtered
        | some k => (sortDesc filtered).take k
      Except.ok (selected.map (fun p =>
        { name := (alookup s.index_to_term p.1).getD none
          ids := (alookup s.term_to_ids ((alookup s.index_to_term p.1).getD none)).getD ∅
          score := p.2 }))

/-- `SimilaritySearch.has_term` (similarity.py, lines 205-219). -/
def has_term (s : SimilaritySearch) (term : String) : Bool :=
  (alookup s.term_to_index (some (PValue.str term))).isSome

/-- C5: for every similarity-search state and query, a term that is not a
registered label fails with `TermNotFoundError`, and a registered label never
produces this error: the query returns a result list. -/
theorem C5_term_not_found_dichotomy (s : SimilaritySearch) (term : String)
    (n : Option Nat) (threshold : Option ℚ) :
    (alookup s.term_to_index (some (PValue.str term)) = none →
      find_similar s term n threshold = Except.error (QueryError.termNotFound term)) ∧
    (alookup s.term_to_index (some (PValue.str term)) ≠ none →
      ∃ r, find_similar s term n threshold = Except.ok r) := by
  constructor
  · intro h
    have hb : (alookup s.term_to_index (some (PValue.str term))).isNone = true := by
      rw [h]; rfl
    rw [find_similar, if_pos hb]
  · intro h
    have hb : ¬ (alookup s.term_to_index (some (PValue.str term))).isNone = true :=
      fun hh => h (Option.isNone_iff_eq_none.mp hh)
    rw [find_similar, if_neg hb]
    rcases hm : s.matrix with _ | rows
    · exact ⟨[], rfl⟩
    · exact ⟨_, rfl⟩

/-- Concrete one-term similarity-search state used by the witnesses. -/
def simS1 : SimilaritySearch :=
  ⟨[(some (PValue.str "x"), {PValue.str "X"})],
   [(0, some (PValue.str "x"))],
   [(some (PValue.str "x"), 0)],
   some (fun _ => [(0, 1)])⟩

/-- Witness for C5: both sides of the dichotomy at concrete inputs. -/
theorem C5_witness :
    find_similar simS1 "zz" none none = Except.error (QueryError.termNotFound "zz") ∧
    (∃ r, find_similar simS1 "x" none none = Except.ok r) :=
  ⟨(C5_term_not_found_dichotomy simS1 "zz" none none).1 (by decide),
   (C5_term_not_found_dichotomy simS1 "x" none none).2 (by decide)⟩

/-- C9: the n-and-threshold query is a subset, of size at most n, of the
threshold-only query: threshold filtering is applied before top-n selection. -/
theorem C9_threshold_before_topn (s : SimilaritySearch) (t : String) (k : Nat)
    (x : ℚ) (l1 l2 : List SimResult)
    (h1 : find_similar s t none (some x) = Except.ok l1)
    (h2 : find_similar s t (some k) (some x) = Except.ok l2) :
    l2 ⊆ l1 ∧ l2.length ≤ k := by
  rw [find_similar] at h1 h2
  by_cases hc : (alookup s.term_to_index (some (PValue.str t))).isNone = true
  · rw [if_pos hc] at h1
    exact absurd h1 (by simp)
  · rw [if_neg hc] at h1 h2
    rcases hm : s.matrix with _ | rows
    · rw [hm] at h1 h2
      simp only [Except.ok.injEq] at h1 h2
      subst h1
      subst h2
      exact ⟨by intro r hr; exact hr, by simp⟩
    · rw [hm] at h1 h2
      simp only [Except.ok.injEq] at h1 h2
      subst h1
      subst h2
      constructor
      · intro r hr
        rcases List.mem_map.mp hr with ⟨p, hp, rfl⟩
        exact List.mem_map_of_mem _ (List.take_subset k _ hp)
      · rw [List.length_map]
        exact List.length_take_le k _

/-- Witness for C9 at the concrete one-term state. -/
theorem C9_witness :
    [(⟨some (PValue.str "x"), {PValue.str "X"}, 1⟩ : SimResult)] ⊆
      [⟨some (PValue.str "x"), {PValue.str "X"}, 1⟩] ∧
    ([(⟨some (PValue.str "x"), {PValue.str "X"}, 1⟩ : SimResult)]).length ≤ 1 :=
  C9_threshold_before_topn simS1 "x" 1 0 _ _ (by rfl) (by rfl)

/-!
XML layer (lxml elements as parsing.py consumes them).
-/

/-- An XML element as lxml presents it: lxml's Clark-notation tag (namespace
URI in braces followed by the local name) is represented as the pair of its
two components; text is the optional textual content; attributes (themselves
namespace-qualified) are `(attrNamespaceURI, attrLocalName, value)` triples. -/
inductive XNode where
  | mk (ns : String) (localName : String) (text : Option String)
       (attrs : List (String × String × String)) (children : List XNode)

/-- Namespace URI component of the element's tag. -/
def XNode.ns : XNode → String
  | .mk n _ _ _ _ => n

/-- Local-name component of the element's tag. -/
def XNode.localName : XNode → String
  | .mk _ l _ _ _ => l

/-- The element's text content (`child.text`). -/
def XNode.text : XNode → Option String
  | .mk _ _ t _ _ => t

/-- The element's attributes. -/
def XNode.attrs : XNode → List (String × String × String)
  | .mk _ _ _ a _ => a

/-- The element's direct children. -/
def XNode.children : XNode → List XNode
  | .mk _ _ _ _ c => c

/-- The element's full Clark-notation tag string (`child.tag`). -/
def XNode.tag (x : XNode) : String := "\x7b" ++ x.ns ++ "\x7d" ++ x.localName

/-- `element.get("{attrNs}attrName")`: first matching attribute value. -/
def XNode.getAttr (x : XNode) (attrNs attrName : String) : Option String :=
  x.attrs.findSome? (fun a =>
    if a.1 = attrNs ∧ a.2.1 = attrName then some a.2.2 else none)

/-- Python `str.strip()`: drop leading and trailing whitespace (embedded over
the character data so that it evaluates in the kernel). -/
def pyStrip (s : String) : String :=
  ⟨((s.data.dropWhile Char.isWhitespace).reverse.dropWhile Char.isWhitespace).reverse⟩

/-- `if tag not in properties: properties[tag] = []`. -/
def ensureKey (props : List (String × List String)) (k : String) :
    List (String × List String) :=
  if (alookup props k).isSome then props else props ++ [(k, [])]

/-- `properties[tag].append(v)` (key present after `ensureKey`; kept total). -/
def appendVal : List (String × List String) → String → String →
    List (String × List String)
  | [], k, v => [(k, [v])]
  | (k1, l) :: t, k, v =>
    if k1 = k then (k1, l ++ [v]) :: t else (k1, l) :: appendVal t k v

/-- `_extract_properties` (parsing.py, lines 194-234): scan direct children
whose namespace is among the declared namespace values; append trimmed text
and/or the `rdf:resource` attribute value into a list per local tag name;
collapse single-value lists to the plain string.  The `namespace_map["rdf"]`
indexing is totalised with a default; every caller in the parse flow has
already validated that the `rdf` prefix is declared. -/
def extract_properties (namespace_map : List (String × String)) (element : XNode) :
    List (String × PValue) :=
  let rdfNsv := (alookup namespace_map "rdf").getD ""
  let raw := element.children.foldl (fun props child =>
    if child.ns ∈ namespace_map.map (fun p => p.2) then
      let props1 := ensureKey props child.localName
      let props2 := match child.text with
        | some t => if t ≠ "" then appendVal props1 child.localName (pyStrip t) else props1
        | none => props1
      match child.getAttr rdfNsv "resource" with
      | some r => if r ≠ "" then appendVal props2 child.localName r else props2
      | none => props2
    else props) []
  raw.map (fun p => match p with
    | (k, [v]) => (k, PValue.str v)
    | (k, l) => (k, PValue.list l))

/-!
Claim C6: the heart-disease scenario, from the XML element through
`_extract_properties` into `build_term_index`.
-/

/-- The rdf namespace URI. -/
def rdfNS : String := "http://www.w3.org/1999/02/22-rdf-syntax-ns#"

/-- The rdfs namespace URI. -/
def rdfsNS : String := "http://www.w3.org/2000/01/rdf-schema#"

/-- The owl namespace URI. -/
def owlNS : String := "http://www.w3.org/2002/07/owl#"

/-- The oboInOwl namespace URI. -/
def oboNS : String := "http://www.geneontology.org/formats/oboInOwl#"

/-- A standard declared-namespace table. -/
def nsmapStd : List (String × String) :=
  [("rdf", rdfNS), ("rdfs", rdfsNS), ("owl", owlNS), ("oboInOwl", oboNS)]

/-- The scenario class element of C6: primary label "heart disease" and
exactly one exact synonym "cardiac disease", with id property "C". -/
def classC : XNode :=
  XNode.mk owlNS "Class" none [(rdfNS, "about", "http://purl.obolibrary.org/obo/C")]
    [XNode.mk rdfsNS "label" (some "heart disease") [] [],
     XNode.mk oboNS "hasExactSynonym" (some "cardiac disease") [] [],
     XNode.mk oboNS "id" (some "C") [] []]

/-- The extracted entity record for the C6 scenario class. -/
def entityC : Entity := ⟨extract_properties nsmapStd classC, [], [], [], []⟩

/-- C6: for class C with primary label "heart disease" and exactly one exact
synonym "cardiac disease", property extraction collapses both to single
strings, and both full strings are registered in the term index, each mapping
to the id set containing exactly the id property value of C. -/
theorem C6_label_and_synonym_register :
    extract_properties nsmapStd classC =
      [("label", PValue.str "heart disease"),
       ("hasExactSynonym", PValue.str "cardiac disease"),
       ("id", PValue.str "C")] ∧
    alookup (build_term_index [("http://purl.obolibrary.org/obo/C", entityC)]).term_to_ids
      (some (PValue.str "heart disease")) = some {PValue.str "C"} ∧
    alookup (build_term_index [("http://purl.obolibrary.org/obo/C", entityC)]).term_to_ids
      (some (PValue.str "cardiac disease")) = some {PValue.str "C"} := by
  refine ⟨by decide, by decide, by decide⟩

/-!
Claim C10: the term index reads only entity 'id' property values, never the
URI map keys, and skips entities without an 'id' property.
-/

/-- C10: term-index construction only considers entities carrying an 'id'
property, and reads nothing but the dict's values: (a) the result depends
only on the entity records, not on their URI map keys; (b) an entity whose
properties lack the key 'id' contributes nothing at all (so neither its
label nor its exact synonyms are registered, and all registered id sets hold
'id' property values of the contributing entities). -/
theorem C10_id_property_only :
    (∀ (l1 l2 : List (String × Entity)), l1.map Prod.snd = l2.map Prod.snd →
      build_term_index l1 = build_term_index l2) ∧
    (∀ (pre post : List (String × Entity)) (uri : String) (e : Entity),
      pget e "id" = none →
      build_term_index (pre ++ (uri, e) :: post) = build_term_index (pre ++ post)) := by
  constructor
  · intro l1 l2 h
    rw [build_term_index, build_term_index, h]
  · intro pre post uri e he
    rw [build_term_index, build_term_index, List.map_append, List.map_cons,
      List.map_append]
    have hfm : ∀ (g : Entity → Option (PValue × Option PValue)), g e = none →
        List.filterMap g (pre.map Prod.snd ++ e :: post.map Prod.snd) =
        List.filterMap g (pre.map Prod.snd ++ post.map Prod.snd) := by
      intro g hg
      rw [List.filterMap_append, List.filterMap_append, List.filterMap_cons_none hg]
    simp only [build_term_index_values]
    rw [hfm _ (by rw [he]), hfm _ (by rw [he])]

/-- Entity without an 'id' property, used by the C10 witness. -/
def entNoId : Entity := ⟨[("label", PValue.str "hidden label")], [], [], [], []⟩

/-- Witness for C10 at concrete inputs: a no-id entity is invisible to the
index, and the URI keys are irrelevant. -/
theorem C10_witness :
    build_term_index [("u", entNoId)] = build_term_index [] ∧
    build_term_index [("u1", entityC)] = build_term_index [("u2", entityC)] :=
  ⟨C10_id_property_only.2 [] [] "u" entNoId (by decide),
   C10_id_property_only.1 [("u1", entityC)] [("u2", entityC)] (by decide)⟩

/-!
Claim C2: the Ontology Facade's existence validation.
-/

/-- An object-property relation record (`_extract_all_relations`,
parsing.py lines 146-191). -/
structure Relation where
  predicate : String
  domain : Option String
  range : Option String
  properties : List (String × String)
deriving DecidableEq

/-- Modelled from the spec: the Ontology Facade of spec §4.4 is not present
under src/ — the package `__init__` advertises `get_ancestors` and
`find_similar_terms` on the parser facade, but the legacy
`reader.OntologyParser` in src predates the refactor and has neither these
methods nor any existence validation.  Per the spec, the facade's
`get_ancestors` first validates that the id exists in the entity map,
raising `EntityNotFoundError` before delegating to the Hierarchy Index. -/
def facade_get_ancestors (entities : List (String × Entity)) (entityId : String)
    (maxDepth : Int) : Except QueryError (List String) :=
  if (alookup entities entityId).isNone then
    Except.error (QueryError.entityNotFound entityId)
  else
    Except.ok (get_ancestors_list (build_subclass_map entities) entityId maxDepth)

/-- Modelled from the spec: facade `get_descendants` (spec §4.4), validating
the id against the entity map before delegating. -/
def facade_get_descendants (entities : List (String × Entity)) (entityId : String)
    (maxDepth : Int) : Except QueryError (List String) :=
  if (alookup entities entityId).isNone then
    Except.error (QueryError.entityNotFound entityId)
  else
    Except.ok (get_descendants_list (build_subclass_map entities) entityId maxDepth)

/-- Modelled from the spec: facade `get_entity_relations` (spec §4.4),
validating existence, then returning depth-1 ancestors, depth-1 descendants,
and every relation whose domain, range, or any property value equals the id
(the relation filter follows `reader.OntologyParser.get_entity_relations`,
which is in src). -/
def facade_get_entity_relations (entities : List (String × Entity))
    (relations : List Relation) (entityId : String) :
    Except QueryError (List String × List String × List Relation) :=
  if (alookup entities entityId).isNone then
    Except.error (QueryError.entityNotFound entityId)
  else
    Except.ok
      (get_ancestors_list (build_subclass_map entities) entityId 1,
       get_descendants_list (build_subclass_map entities) entityId 1,
       relations.filter (fun r => decide (r.domain = some entityId ∨
         r.range = some entityId ∨ entityId ∈ r.properties.map (fun p => p.2))))

/-- C2: for every entity id absent from the entity map, the facade's
`get_ancestors`, `get_descendants` and `get_entity_relations` raise
`EntityNotFoundError` before delegating to the hierarchy traversal. -/
theorem C2_unknown_entity_raises (entities : List (String × Entity))
    (relations : List Relation) (entityId : String) (maxDepth : Int)
    (h : alookup entities entityId = none) :
    facade_get_ancestors entities entityId maxDepth =
      Except.error (QueryError.entityNotFound entityId) ∧
    facade_get_descendants entities entityId maxDepth =
      Except.error (QueryError.entityNotFound entityId) ∧
    facade_get_entity_relations entities relations entityId =
      Except.error (QueryError.entityNotFound entityId) := by
  have hb : (alookup entities entityId).isNone = true := by rw [h]; rfl
  exact ⟨by rw [facade_get_ancestors, if_pos hb],
         by rw [facade_get_descendants, if_pos hb],
         by rw [facade_get_entity_relations, if_pos hb]⟩

/-- Witness for C2: an id unknown to the two-class scenario document. -/
theorem C2_witness :
    facade_get_ancestors scenarioC1 "Z" (-1) =
      Except.error (QueryError.entityNotFound "Z") ∧
    facade_get_descendants scenarioC1 "Z" (-1) =
      Except.error (QueryError.entityNotFound "Z") ∧
    facade_get_entity_relations scenarioC1 [] "Z" =
      Except.error (QueryError.entityNotFound "Z") :=
  C2_unknown_entity_raises scenarioC1 [] "Z" (-1) (by decide)

/-!
Claim C7: the Extractor contract (parsing.py).  `find`/`findall` with an
explicit namespace map resolve the path's namespace through that map;
resolving an undeclared prefix raises an (uncaught) path-syntax error in
lxml/ElementTree, modelled as `PyErr.nsResolutionError`.
-/

mutual

/-- Size of an XML element (1 plus the sizes of all descendants): a
computable bound on nesting depth, used as recursion fuel below. -/
def XNode.size : XNode → Nat
  | .mk _ _ _ _ children => 1 + XNode.sizeList children

/-- Total size of a list of XML elements. -/
def XNode.sizeList : List XNode → Nat
  | [] => 0
  | c :: t => XNode.size c + XNode.sizeList t

end

/-- Errors arising while parsing: `OntologyParseError` raised by
parse_owl_file itself, and the uncaught namespace-resolution error lxml
raises from `findall` when a path uses an undeclared namespace shorthand. -/
inductive PyErr where
  | parseError (msg : String)
  | nsResolutionError (shorthand : String)
deriving DecidableEq

/-- `element.findall("p:local", namespace_map)`: resolve `p` through the
passed map (error when undeclared), then match direct children by namespace
URI and local name. -/
def findAllNs (children : List XNode) (namespace_map : List (String × String))
    (p localName : String) : Except PyErr (List XNode) :=
  match alookup namespace_map p with
  | none => Except.error (PyErr.nsResolutionError p)
  | some nsv => Except.ok (children.filter (fun c =>
      decide (c.ns = nsv ∧ c.localName = localName)))

/-- `_extract_synonyms` (parsing.py, lines 237-262): for each synonym kind,
collect the trimmed text of matching `oboInOwl:` children whose text is not
`None`. -/
def extract_synonyms (namespace_map : List (String × String)) (element : XNode) :
    Except PyErr (List (String × List String)) :=
  ["hasExactSynonym", "hasNarrowSynonym", "hasBroadSynonym"].foldlM
    (fun acc kind => do
      let elems ← findAllNs element.children namespace_map "oboInOwl" kind
      pure (acc ++ [(kind, elems.filterMap (fun el => el.text.map pyStrip))]))
    []

/-- `_extract_matches` (parsing.py, lines 265-295): empty when the skos
namespace value is absent or falsy; otherwise collect the `resource`
attribute (qualified by the skos URI, as the source does) of matching
children for each match kind. -/
def extract_matches (namespace_map : List (String × String)) (element : XNode) :
    Except PyErr (List (String × List String)) :=
  match alookup namespace_map "skos" with
  | none => Except.ok []
  | some sv =>
    if sv = "" then Except.ok []
    else
      ["exactMatch", "closeMatch", "narrowMatch", "broadMatch"].foldlM
        (fun acc kind => do
          let elems ← findAllNs element.children namespace_map "skos" kind
          pure (acc ++ [(kind, elems.filterMap (fun el => el.getAttr sv "resource"))]))
        []

/-- `_parse_restriction_or_intersection` (parsing.py, lines 298-347).  The
recursion follows XML nesting; `fuel` is a structural-termination argument:
callers pass the node's size, which strictly bounds the nesting depth, so the
fuel-exhaustion branch is unreachable. -/
def parse_restriction_or_intersection (namespace_map : List (String × String)) :
    Nat → XNode → Except PyErr (List Restriction)
  | 0, _ => Except.ok []
  | fuel + 1, element => do
    let rdfNsv := (alookup namespace_map "rdf").getD ""
    let inters ← findAllNs element.children namespace_map "owl" "intersectionOf"
    match inters.head? with
    | some intersection =>
      if intersection.getAttr rdfNsv "parseType" = some "Collection" then
        intersection.children.foldlM (fun acc item =>
          if item.tag.endsWith "Description" ∨
              (item.tag.splitOn "Restriction").length > 1 then do
            let sub ← parse_restriction_or_intersection namespace_map fuel item
            pure (acc ++ sub)
          else pure acc) []
      else pure []
    | none =>
      let restrs ← findAllNs element.children namespace_map "owl" "Restriction"
      match restrs.head? with
      | some restriction => do
        let onProps ← findAllNs restriction.children namespace_map "owl" "onProperty"
        let svf ← findAllNs restriction.children namespace_map "owl" "someValuesFrom"
        pure [⟨onProps.head?.bind (fun el => el.getAttr rdfNsv "resource"),
              svf.head?.bind (fun el => el.getAttr rdfNsv "resource")⟩]
      | none => pure []

/-- `_extract_entity` (parsing.py, lines 97-143): properties, subclasses
(resource references directly; otherwise non-empty restriction data),
disjoints, synonyms and matches. -/
def extract_entity (namespace_map : List (String × String)) (element : XNode) :
    Except PyErr Entity := do
  let rdfNsv := (alookup namespace_map "rdf").getD ""
  let properties := extract_properties namespace_map element
  let subs ← findAllNs element.children namespace_map "rdfs" "subClassOf"
  let subclasses ← subs.foldlM (fun acc subclass => do
    match subclass.getAttr rdfNsv "resource" with
    | some r =>
      if r ≠ "" then pure (acc ++ [SubEntry.str r])
      else do
        let restrictionData ←
          parse_restriction_or_intersection namespace_map (XNode.size subclass) subclass
        pure (if restrictionData ≠ [] then
          acc ++ [SubEntry.list (restrictionData.map SubItem.restriction)] else acc)
    | none => do
      let restrictionData ←
        parse_restriction_or_intersection namespace_map (XNode.size subclass) subclass
      pure (if restrictionData ≠ [] then
        acc ++ [SubEntry.list (restrictionData.map SubItem.restriction)] else acc)) []
  let disjointElems ← findAllNs element.children namespace_map "owl" "disjointWith"
  let disjoints := disjointElems.filterMap (fun d => d.getAttr rdfNsv "resource")
  let synonyms ← extract_synonyms namespace_map element
  let skosM ← extract_matches namespace_map element
  pure ⟨properties, subclasses, disjoints, synonyms, skosM⟩

/-- `_extract_all_entities` (parsing.py, lines 68-94): every `owl:Class`
child with a truthy `rdf:about` becomes an entity keyed by that URI. -/
def extract_all_entities (namespace_map : List (String × String)) (root : XNode) :
    Except PyErr (List (String × Entity)) := do
  let rdfNsv := (alookup namespace_map "rdf").getD ""
  let classes ← findAllNs root.children namespace_map "owl" "Class"
  classes.foldlM (fun entities owlClass =>
    match owlClass.getAttr rdfNsv "about" with
    | some eid =>
      if eid ≠ "" then do
        let ent ← extract_entity namespace_map owlClass
        pure (assocUpd entities eid ent)
      else pure entities
    | none => pure entities) []

/-- `_extract_all_relations` (parsing.py, lines 146-191): every
`owl:ObjectProperty` child with a truthy `rdf:about` becomes a relation with
optional domain/range and a last-wins property map of trimmed child texts. -/
def extract_all_relations (namespace_map : List (String × String)) (root : XNode) :
    Except PyErr (List Relation) := do
  let rdfNsv := (alookup namespace_map "rdf").getD ""
  let objProps ← findAllNs root.children namespace_map "owl" "ObjectProperty"
  objProps.foldlM (fun relations objProp =>
    match objProp.getAttr rdfNsv "about" with
    | some pred =>
      if pred ≠ "" then do
        let domains ← findAllNs objProp.children namespace_map "rdfs" "domain"
        let ranges ← findAllNs objProp.children namespace_map "rdfs" "range"
        pure (relations ++ [⟨pred,
          domains.head?.bind (fun el => el.getAttr rdfNsv "resource"),
          ranges.head?.bind (fun el => el.getAttr rdfNsv "resource"),
          dictOf (objProp.children.filterMap (fun child =>
            match child.text with
            | some t => if t ≠ "" then some (child.localName, pyStrip t) else none
            | none => none))⟩])
      else pure relations
    | none => pure relations) []

/-- A parsed XML document: the root element's accumulated namespace
declarations (`root.nsmap`, whose keys may be `None` for a default
namespace) and the root element. -/
structure XDoc where
  nsmapRaw : List (Option String × String)
  root : XNode

/-- The namespace filter of parse_owl_file: keep declarations whose key is
not `None` and whose value is truthy. -/
def nsFilter (nsmapRaw : List (Option String × String)) : List (String × String) :=
  nsmapRaw.filterMap (fun p =>
    match p.1 with
    | none => none
    | some k => if p.2 ≠ "" then some (k, p.2) else none)

/-- The extractor's input as the filesystem and the XML parser present it:
whether the path exists and is a regular file, and the parsed document
(`none` models an XML syntax error). -/
structure FileInput where
  path : String
  pathExists : Bool
  pathIsFile : Bool
  xml : Option XDoc

/-- `parse_owl_file` (parsing.py, lines 14-65): validate the path exists, is
a regular file, parses as XML, and declares the `rdf` namespace — each
failure raises `OntologyParseError` before any structure is built; then
extract entities and relations and return the triple. -/
def parse_owl_file (inp : FileInput) :
    Except PyErr (List (String × Entity) × List Relation × List (String × String)) :=
  if inp.pathExists = false then
    Except.error (PyErr.parseError ("Ontology file not found: " ++ inp.path))
  else if inp.pathIsFile = false then
    Except.error (PyErr.parseError ("Path is not a file: " ++ inp.path))
  else
    match inp.xml with
    | none => Except.error (PyErr.parseError ("Invalid XML in ontology file: " ++ inp.path))
    | some doc =>
      let namespace_map := nsFilter doc.nsmapRaw
      if (alookup namespace_map "rdf").isNone then
        Except.error (PyErr.parseError
          ("Missing required 'rdf' namespace in ontology: " ++ inp.path))
      else do
        let entities ← extract_all_entities namespace_map doc.root
        let relations ← extract_all_relations namespace_map doc.root
        pure (entities, relations, namespace_map)

/-- Bind of two fallible computations succeeds when both sides do. -/
theorem bind_ok_exists {α β : Type} {m : Except PyErr α} {g : α → Except PyErr β}
    (h : ∃ a, m = Except.ok a) (h2 : ∀ a, ∃ b, g a = Except.ok b) :
    ∃ b, (m >>= g) = Except.ok b := by
  obtain ⟨a, ha⟩ := h
  obtain ⟨b, hb⟩ := h2 a
  exact ⟨b, by rw [ha]; exact hb⟩

/-- A monadic fold succeeds when every step does. -/
theorem foldlM_ok {α β : Type} (f : β → α → Except PyErr β) :
    ∀ (l : List α) (b : β), (∀ b a, a ∈ l → ∃ r, f b a = Except.ok r) →
    ∃ r, l.foldlM f b = Except.ok r := by
  intro l
  induction l with
  | nil => intro b _; exact ⟨b, rfl⟩
  | cons x t ih =>
    intro b h
    obtain ⟨r, hr⟩ := h b x (List.mem_cons_self x t)
    have h1 : (x :: t).foldlM f b = f b x >>= fun b2 => t.foldlM f b2 := rfl
    rw [h1, hr]
    exact ih r (fun b a ha => h b a (List.mem_cons_of_mem x ha))

/-- `findall` succeeds when the queried shorthand is declared. -/
theorem findAllNs_ok (children : List XNode) (namespace_map : List (String × String))
    (p localName : String) (h : (alookup namespace_map p).isSome = true) :
    ∃ l, findAllNs children namespace_map p localName = Except.ok l := by
  rw [findAllNs]
  rcases hm : alookup namespace_map p with _ | v
  · rw [hm] at h
    simp at h
  · exact ⟨_, rfl⟩

/-- Synonym extraction succeeds when `oboInOwl` is declared. -/
theorem extract_synonyms_ok (namespace_map : List (String × String)) (element : XNode)
    (hobo : (alookup namespace_map "oboInOwl").isSome = true) :
    ∃ r, extract_synonyms namespace_map element = Except.ok r := by
  rw [extract_synonyms]
  apply foldlM_ok
  intro b a _
  apply bind_ok_exists (findAllNs_ok _ _ _ _ hobo)
  intro elems
  exact ⟨_, rfl⟩

/-- Match extraction always succeeds (the skos query is guarded). -/
theorem extract_matches_ok (namespace_map : List (String × String)) (element : XNode) :
    ∃ r, extract_matches namespace_map element = Except.ok r := by
  rw [extract_matches]
  rcases hm : alookup namespace_map "skos" with _ | sv
  · exact ⟨[], rfl⟩
  · dsimp only
    by_cases hsv : sv = ""
    · rw [if_pos hsv]
      exact ⟨[], rfl⟩
    · rw [if_neg hsv]
      apply foldlM_ok
      intro b a _
      apply bind_ok_exists (findAllNs_ok _ _ _ _ (by rw [hm]; rfl))
      intro elems
      exact ⟨_, rfl⟩

/-- Restriction/intersection parsing succeeds when `owl` is declared. -/
theorem parse_restriction_or_intersection_ok (namespace_map : List (String × String))
    (howl : (alookup namespace_map "owl").isSome = true) :
    ∀ (fuel : Nat) (element : XNode),
      ∃ r, parse_restriction_or_intersection namespace_map fuel element = Except.ok r := by
  intro fuel
  induction fuel with
  | zero => intro element; exact ⟨[], rfl⟩
  | succ f ih =>
    intro element
    simp only [parse_restriction_or_intersection]
    apply bind_ok_exists (findAllNs_ok _ _ _ _ howl)
    intro inters
    rcases inters.head? with _ | intersection
    · apply bind_ok_exists (findAllNs_ok _ _ _ _ howl)
      intro restrs
      rcases restrs.head? with _ | restriction
      · exact ⟨[], rfl⟩
      · apply bind_ok_exists (findAllNs_ok _ _ _ _ howl)
        intro onProps
        apply bind_ok_exists (findAllNs_ok _ _ _ _ howl)
        intro svf
        exact ⟨_, rfl⟩
    · dsimp only
      by_cases hc : intersection.getAttr ((alookup namespace_map "rdf").getD "")
          "parseType" = some "Collection"
      · rw [if_pos hc]
        apply foldlM_ok
        intro b a _
        dsimp only
        by_cases ht : (a.tag.endsWith "Description" = true) ∨
            (a.tag.splitOn "Restriction").length > 1
        · rw [if_pos ht]
          apply bind_ok_exists (ih a)
          intro sub
          exact ⟨_, rfl⟩
        · rw [if_neg ht]
          exact ⟨b, rfl⟩
      · rw [if_neg hc]
        exact ⟨[], rfl⟩

/-- Entity extraction succeeds when `owl`, `rdfs` and `oboInOwl` are declared. -/
theorem extract_entity_ok (namespace_map : List (String × String)) (element : XNode)
    (howl : (alookup namespace_map "owl").isSome = true)
    (hrdfs : (alookup namespace_map "rdfs").isSome = true)
    (hobo : (alookup namespace_map "oboInOwl").isSome = true) :
    ∃ r, extract_entity namespace_map element = Except.ok r := by
  rw [extract_entity]
  apply bind_ok_exists (findAllNs_ok _ _ _ _ hrdfs)
  intro subs
  apply bind_ok_exists
  · apply foldlM_ok
    intro b a _
    rcases a.getAttr ((alookup namespace_map "rdf").getD "") "resource" with _ | r
    · apply bind_ok_exists (parse_restriction_or_intersection_ok _ howl _ _)
      intro rd
      exact ⟨_, rfl⟩
    · dsimp only
      by_cases hr : r ≠ ""
      · rw [if_pos hr]
        exact ⟨_, rfl⟩
      · rw [if_neg hr]
        apply bind_ok_exists (parse_restriction_or_intersection_ok _ howl _ _)
        intro rd
        exact ⟨_, rfl⟩
  · intro subclasses
    apply bind_ok_exists (findAllNs_ok _ _ _ _ howl)
    intro disjointElems
    apply bind_ok_exists (extract_synonyms_ok _ _ hobo)
    intro synonyms
    apply bind_ok_exists (extract_matches_ok _ _)
    intro skosM
    exact ⟨_, rfl⟩

/-- Entity-table extraction succeeds when `owl`, `rdfs`, `oboInOwl` are
declared. -/
theorem extract_all_entities_ok (namespace_map : List (String × String)) (root : XNode)
    (howl : (alookup namespace_map "owl").isSome = true)
    (hrdfs : (alookup namespace_map "rdfs").isSome = true)
    (hobo : (alookup namespace_map "oboInOwl").isSome = true) :
    ∃ r, extract_all_entities namespace_map root = Except.ok r := by
  rw [extract_all_entities]
  apply bind_ok_exists (findAllNs_ok _ _ _ _ howl)
  intro classes
  apply foldlM_ok
  intro b a _
  rcases a.getAttr ((alookup namespace_map "rdf").getD "") "about" with _ | eid
  · exact ⟨b, rfl⟩
  · dsimp only
    by_cases he : eid ≠ ""
    · rw [if_pos he]
      apply bind_ok_exists (extract_entity_ok _ _ howl hrdfs hobo)
      intro ent
      exact ⟨_, rfl⟩
    · rw [if_neg he]
      exact ⟨b, rfl⟩

/-- Relation extraction succeeds when `owl` and `rdfs` are declared. -/
theorem extract_all_relations_ok (namespace_map : List (String × String)) (root : XNode)
    (howl : (alookup namespace_map "owl").isSome = true)
    (hrdfs : (alookup namespace_map "rdfs").isSome = true) :
    ∃ r, extract_all_relations namespace_map root = Except.ok r := by
  rw [extract_all_relations]
  apply bind_ok_exists (findAllNs_ok _ _ _ _ howl)
  intro objProps
  apply foldlM_ok
  intro b a _
  rcases a.getAttr ((alookup namespace_map "rdf").getD "") "about" with _ | pred
  · exact ⟨b, rfl⟩
  · dsimp only
    by_cases hp : pred ≠ ""
    · rw [if_pos hp]
      apply bind_ok_exists (findAllNs_ok _ _ _ _ hrdfs)
      intro domains
      apply bind_ok_exists (findAllNs_ok _ _ _ _ hrdfs)
      intro ranges
      exact ⟨_, rfl⟩
    · rw [if_neg hp]
      exact ⟨b, rfl⟩

/-- Reduction of `parse_owl_file` on an existing regular file with parsed
XML: only the namespace check and extraction remain. -/
theorem parse_owl_file_valid (p : String) (doc : XDoc) :
    parse_owl_file ⟨p, true, true, some doc⟩ =
      (if (alookup (nsFilter doc.nsmapRaw) "rdf").isNone = true then
        Except.error (PyErr.parseError
          ("Missing required 'rdf' namespace in ontology: " ++ p))
      else do
        let entities ← extract_all_entities (nsFilter doc.nsmapRaw) doc.root
        let relations ← extract_all_relations (nsFilter doc.nsmapRaw) doc.root
        pure (entities, relations, nsFilter doc.nsmapRaw)) := rfl

/-- C7 (amended): every failed validation (missing path, non-regular file,
malformed XML, undeclared rdf) yields the corresponding `ParseError` with no
partial result; and on an input passing all four validations the extracted
triple is returned provided the document also declares the `owl`, `rdfs` and
`oboInOwl` shorthands used by the extraction queries (the counterexample
shows the claim as stated fails without them). -/
theorem C7_parse_error_contract (inp : FileInput) :
    (inp.pathExists = false →
      parse_owl_file inp =
        Except.error (PyErr.parseError ("Ontology file not found: " ++ inp.path))) ∧
    (inp.pathExists = true → inp.pathIsFile = false →
      parse_owl_file inp =
        Except.error (PyErr.parseError ("Path is not a file: " ++ inp.path))) ∧
    (inp.pathExists = true → inp.pathIsFile = true → inp.xml = none →
      parse_owl_file inp =
        Except.error (PyErr.parseError ("Invalid XML in ontology file: " ++ inp.path))) ∧
    (∀ doc, inp.pathExists = true → inp.pathIsFile = true → inp.xml = some doc →
      alookup (nsFilter doc.nsmapRaw) "rdf" = none →
      parse_owl_file inp =
        Except.error (PyErr.parseError
          ("Missing required 'rdf' namespace in ontology: " ++ inp.path))) ∧
    (∀ doc, inp.pathExists = true → inp.pathIsFile = true → inp.xml = some doc →
      (alookup (nsFilter doc.nsmapRaw) "rdf").isSome = true →
      (alookup (nsFilter doc.nsmapRaw) "owl").isSome = true →
      (alookup (nsFilter doc.nsmapRaw) "rdfs").isSome = true →
      (alookup (nsFilter doc.nsmapRaw) "oboInOwl").isSome = true →
      ∃ entities relations,
        extract_all_entities (nsFilter doc.nsmapRaw) doc.root = Except.ok entities ∧
        extract_all_relations (nsFilter doc.nsmapRaw) doc.root = Except.ok relations ∧
        parse_owl_file inp = Except.ok (entities, relations, nsFilter doc.nsmapRaw)) := by
  rcases inp with ⟨p, pe, pf, x⟩
  refine ⟨?_, ?_, ?_, ?_, ?_⟩
  · intro h
    subst h
    rfl
  · intro h1 h2
    subst h1
    subst h2
    rfl
  · intro h1 h2 h3
    subst h1
    subst h2
    subst h3
    rfl
  · intro doc h1 h2 h3 h4
    subst h1
    subst h2
    subst h3
    have hb : (alookup (nsFilter doc.nsmapRaw) "rdf").isNone = true := by rw [h4]; rfl
    rw [parse_owl_file_valid, if_pos hb]
  · intro doc h1 h2 h3 hrdf howl hrdfs hobo
    subst h1
    subst h2
    subst h3
    obtain ⟨es, hes⟩ := extract_all_entities_ok _ doc.root howl hrdfs hobo
    obtain ⟨rs, hrs⟩ := extract_all_relations_ok _ doc.root howl hrdfs
    refine ⟨es, rs, hes, hrs, ?_⟩
    have hb : ¬ (alookup (nsFilter doc.nsmapRaw) "rdf").isNone = true := by
      intro hh
      rw [Option.isNone_iff_eq_none.mp hh] at hrdf
      simp at hrdf
    rw [parse_owl_file_valid, if_neg hb]
    have hstep : (extract_all_entities (nsFilter doc.nsmapRaw) doc.root >>=
        fun entities => extract_all_relations (nsFilter doc.nsmapRaw) doc.root >>=
        fun relations =>
          pure (entities, relations, nsFilter doc.nsmapRaw)) =
        Except.ok (es, rs, nsFilter doc.nsmapRaw) := by
      rw [hes]
      show (extract_all_relations (nsFilter doc.nsmapRaw) doc.root >>=
        fun relations => pure (es, relations, nsFilter doc.nsmapRaw) :
          Except PyErr _) = _
      rw [hrs]
      rfl
    exact hstep

/-- Document declaring only the rdf namespace, with an empty root. -/
def rdfOnlyDoc : XDoc := ⟨[(some "rdf", rdfNS)], XNode.mk rdfNS "RDF" none [] []⟩

/-- An existing, regular, well-formed input holding `rdfOnlyDoc`. -/
def rdfOnlyInput : FileInput := ⟨"good.owl", true, true, some rdfOnlyDoc⟩

/-- C7 counterexample: an input that passes all four validations of the
claim (path exists, regular file, well-formed XML, rdf declared) on which
extraction nevertheless fails with the uncaught namespace-resolution error
for `owl` instead of returning `(entities, relations, namespace_map)`. -/
theorem C7_counterexample :
    rdfOnlyInput.pathExists = true ∧ rdfOnlyInput.pathIsFile = true ∧
    rdfOnlyInput.xml = some rdfOnlyDoc ∧
    alookup (nsFilter rdfOnlyDoc.nsmapRaw) "rdf" = some rdfNS ∧
    parse_owl_file rdfOnlyInput = Except.error (PyErr.nsResolutionError "owl") :=
  ⟨rfl, rfl, rfl, rfl, rfl⟩

/-- Document declaring the four extraction namespaces, with an empty root. -/
def fullDoc : XDoc :=
  ⟨[(some "rdf", rdfNS), (some "owl", owlNS), (some "rdfs", rdfsNS),
    (some "oboInOwl", oboNS)], XNode.mk rdfNS "RDF" none [] []⟩

/-- An existing, regular, well-formed input holding `fullDoc`. -/
def fullInput : FileInput := ⟨"full.owl", true, true, some fullDoc⟩

/-- A missing-path input. -/
def missingInput : FileInput := ⟨"nope.owl", false, true, none⟩

/-- Witness for C7: the missing-file error and the successful triple at
concrete inputs. -/
theorem C7_witness :
    parse_owl_file missingInput =
      Except.error (PyErr.parseError "Ontology file not found: nope.owl") ∧
    (∃ entities relations,
      extract_all_entities (nsFilter fullDoc.nsmapRaw) fullDoc.root =
        Except.ok entities ∧
      extract_all_relations (nsFilter fullDoc.nsmapRaw) fullDoc.root =
        Except.ok relations ∧
      parse_owl_file fullInput =
        Except.ok (entities, relations, nsFilter fullDoc.nsmapRaw)) :=
  ⟨(C7_parse_error_contract missingInput).1 rfl,
   (C7_parse_error_contract fullInput).2.2.2.2 fullDoc rfl rfl rfl
     (by rfl) (by rfl) (by rfl) (by rfl)⟩

end EasyOwl
